import Mathlib

/-!
Shallow embedding of the patch tool (src/patch.c), a command-line utility
that overwrites a byte range inside an existing binary file.

Conventions of the embedding:
* C strings (NUL-terminated char arrays) are modelled as `List Nat` of byte
  values; the NUL terminator is not part of the list, so the byte after the
  last list element corresponds to the terminating 0 of the C string.
* The file on disk is modelled as a total map `Nat → Nat` from byte position
  to byte value, so writes at arbitrary offsets are total and the frame of a
  write is exact.
* `fopen` is modelled by an `Option (Nat → Nat)` parameter (`none` when the
  open fails), and `fwrite` by an oracle `wr : Nat → Nat` giving the number
  of bytes actually written when a count is requested (capped at the
  request, as fwrite never reports more than it was asked to write).
-/

namespace Patch

/-- Enum `data_type` from patch.c.  The numeric values of the C constants
double as the number of bytes written in integer mode. -/
inductive data_type where
  | type_db
  | type_dw
  | type_dd
  | type_dq
  | type_str
deriving DecidableEq

/-- Numeric value of the C enum constant (`type_db = 1`, `type_dw = 2`,
`type_dd = 4`, `type_dq = 8`, `type_str = 0`); in integer mode this value is
also the count handed to fwrite. -/
def data_type.val : data_type → Nat
  | .type_db => 1
  | .type_dw => 2
  | .type_dd => 4
  | .type_dq => 8
  | .type_str => 0

/-- Function `data_type_for` from patch.c: maps the bytes of the -t argument
to a data type; anything unrecognised becomes `type_db`.  The byte lists are
the ASCII of "dw", "dd", "dq" and "str". -/
def data_type_for (arg : List Nat) : data_type :=
  if arg = [100, 119] then .type_dw
  else if arg = [100, 100] then .type_dd
  else if arg = [100, 113] then .type_dq
  else if arg = [115, 116, 114] then .type_str
  else .type_db

/-- ASCII space test matching isspace in the C locale (0x20 and 0x09..0x0D),
used by strtoll to skip leading whitespace. -/
def isSpaceByte (c : Nat) : Bool := c = 32 || (9 ≤ c && c ≤ 13)

/-- ASCII decimal digit test. -/
def isDigitByte (c : Nat) : Bool := 48 ≤ c && c ≤ 57

/-- Value of the maximal leading digit run of a byte string. -/
def digitRunVal (s : List Nat) : Nat :=
  (s.takeWhile fun c => isDigitByte c).foldl (fun acc c => acc * 10 + (c - 48)) 0

/-- Model of the C library function strtoll in base 10, as used by
`integer_for` in patch.c: skip leading whitespace, read an optional sign and
a digit run (an empty run gives 0), and clamp the result to the int64 range
as strtoll does on overflow. -/
def strtoll10 (s : List Nat) : Int :=
  let s1 := s.dropWhile fun c => isSpaceByte c
  let signAndRest : Bool × List Nat :=
    match s1 with
    | 45 :: rest => (true, rest)
    | 43 :: rest => (false, rest)
    | _ => (false, s1)
  let v : Int :=
    if signAndRest.1 then -(Int.ofNat (digitRunVal signAndRest.2))
    else Int.ofNat (digitRunVal signAndRest.2)
  if v < -(2 ^ 63) then -(2 ^ 63)
  else if v > 2 ^ 63 - 1 then 2 ^ 63 - 1
  else v

/-- Function `integer_for` from patch.c: the strtoll result stored into a
uint64_t, i.e. reduced modulo 2^64 (twos-complement reinterpretation). -/
def integer_for (arg : List Nat) : Nat :=
  (strtoll10 arg % (2 ^ 64 : Int)).toNat

/-- Function `copystr` from patch.c: one left-to-right pass that replaces the
two-byte sequences backslash-r and backslash-n by 0x0D and 0x0A and copies
every other byte verbatim.  Byte 92 is the backslash, 114 is the letter r,
110 is the letter n.  The lookahead `rest.head?` mirrors the C read of
`*(str + 1)`, which at the end of the input sees the NUL terminator and
therefore matches neither letter. -/
def copystr (l : List Nat) : List Nat :=
  match l with
  | [] => []
  | c :: rest =>
    if c = 92 ∧ rest.head? = some 114 then 13 :: copystr rest.tail
    else if c = 92 ∧ rest.head? = some 110 then 10 :: copystr rest.tail
    else c :: copystr rest
termination_by l.length
decreasing_by
  all_goals simp [List.length_tail]
  all_goals omega

/-- String-mode buffer construction from main in patch.c: a buffer of
`length` bytes is memset to the pad value, then the first
`min (length of the data) length` bytes of the data are memcpy-ed over its
front. -/
def strEncode (data_in : List Nat) (length pad_value : Nat) : List Nat :=
  let buffer := List.replicate length pad_value
  let m := if data_in.length > length then length else data_in.length
  data_in.take m ++ buffer.drop m

/-- Case `type_db` of the integer-encoding switch in main:
`bytes[0] = v & 0xFF`. -/
def fill_db (v : Nat) (bytes : List Nat) : List Nat :=
  bytes.set 0 (v &&& 255)

/-- Case `type_dw` of the switch: set `bytes[1]`, then fall through to the
`type_db` case. -/
def fill_dw (v : Nat) (bytes : List Nat) : List Nat :=
  fill_db v (bytes.set 1 (v >>> 8 &&& 255))

/-- Case `type_dd` of the switch: set `bytes[3]` and `bytes[2]`, then fall
through to the `type_dw` case. -/
def fill_dd (v : Nat) (bytes : List Nat) : List Nat :=
  fill_dw v ((bytes.set 3 (v >>> 24 &&& 255)).set 2 (v >>> 16 &&& 255))

/-- Case `type_dq` of the switch: set `bytes[7]` down to `bytes[4]`, then
fall through to the `type_dd` case. -/
def fill_dq (v : Nat) (bytes : List Nat) : List Nat :=
  fill_dd v
    ((((bytes.set 7 (v >>> 56 &&& 255)).set 6 (v >>> 48 &&& 255)).set 5
        (v >>> 40 &&& 255)).set 4 (v >>> 32 &&& 255))

/-- The integer encoder of main in patch.c: an 8-byte buffer initialised to
zero (`uint8_t bytes[8] = { 0 }`), filled by the fall-through switch on the
data type.  `type_str` never reaches this switch in the C control flow; for
it the buffer stays zero. -/
def intBytes (t : data_type) (v : Nat) : List Nat :=
  let bytes := List.replicate 8 0
  match t with
  | .type_dq => fill_dq v bytes
  | .type_dd => fill_dd v bytes
  | .type_dw => fill_dw v bytes
  | .type_db => fill_db v bytes
  | .type_str => bytes

/-- The parsed command line of one invocation (the local variables of main
after the getopt loop).  `file` is `none` when no -f flag was supplied;
`data_in` holds the -d payload after `copystr` decoding. -/
structure PatchRequest where
  file : Option (List Nat)
  offset : Nat
  type : data_type
  length : Nat
  pad_value : Nat
  data_in : List Nat

/-- Observable outcome of one run of main: the exit code, the stderr
diagnostic, the resulting file content (when a file could be resolved) and
whether fclose was reached for the opened descriptor. -/
structure RunResult where
  exitCode : Nat
  stderrMsg : String
  file : Option (Nat → Nat)
  closed : Bool

/-- Effect of fseek to `offset` followed by writing the byte list `bs`:
positions in `[offset, offset + bs.length)` take the corresponding byte of
`bs`, every other position keeps its previous value. -/
def writeAt (f : Nat → Nat) (offset : Nat) (bs : List Nat) : Nat → Nat :=
  fun i => if offset ≤ i ∧ i < offset + bs.length then bs.getD (i - offset) 0 else f i

/-- The short-write diagnostic of main with the byte count interpolated. -/
def shortWriteMsg (r : Nat) : String :=
  "Something went wrong when patching file. Wrote " ++ toString r ++ " bytes."

/-- The count main hands to fwrite: the string length in string mode, the
enum value (= width) in integer mode. -/
def requestedCount (req : PatchRequest) : Nat :=
  if req.type = data_type.type_str then req.length else req.type.val

/-- The driver logic of main in patch.c after the getopt loop, for a run in
which the -d payload was supplied.  `opened` is the result of the fopen
attempt on the resolved path (`none` on failure; on the missing-file exit
the open is never attempted and the disk content is returned unchanged).
`wr` models fwrite: for a requested count `n` the actual number of bytes
written is `min (wr n) n`, and those bytes are the front of the buffer. -/
def runPatch (req : PatchRequest) (opened : Option (Nat → Nat)) (wr : Nat → Nat) :
    RunResult :=
  match req.file with
  | none => ⟨1, "No binary file supplied.", opened, false⟩
  | some _ =>
    match opened with
    | none => ⟨2, "Failed to open specified binary file.", none, false⟩
    | some f =>
      if req.type ≠ data_type.type_str then
        let v := integer_for req.data_in
        let bytes := intBytes req.type v
        let n := req.type.val
        let r := min (wr n) n
        let f2 := writeAt f req.offset (bytes.take r)
        if r ≠ n then ⟨3, shortWriteMsg r, some f2, false⟩
        else ⟨0, "", some f2, true⟩
      else
        let buffer := strEncode req.data_in req.length req.pad_value
        let r := min (wr req.length) req.length
        let f2 := writeAt f req.offset (buffer.take r)
        if r ≠ req.length then ⟨3, shortWriteMsg r, some f2, false⟩
        else ⟨0, "", some f2, true⟩

end Patch

namespace Patch

/-- Bridge between the C bit operations and arithmetic: shifting right by k
and masking with 0xFF extracts the byte of weight 2^k, which only depends on
the value modulo 2^(8w) when the byte lies inside the low w bytes. -/
theorem shift_and_byte (v k w : Nat) (h : k + 8 ≤ 8 * w) :
    v >>> k &&& 255 = v % 2 ^ (8 * w) / 2 ^ k % 256 := by
  have hsplit : (2 : Nat) ^ (8 * w) = 2 ^ k * 2 ^ (8 * w - k) := by
    rw [← pow_add]; congr 1; omega
  have hdvd : (256 : Nat) ∣ 2 ^ (8 * w - k) := by
    have h256 : (256 : Nat) = 2 ^ 8 := by norm_num
    rw [h256]; exact pow_dvd_pow 2 (by omega)
  rw [hsplit, Nat.mod_mul_right_div_self, Nat.mod_mod_of_dvd _ hdvd]
  have h255 : (255 : Nat) = 2 ^ 8 - 1 := by norm_num
  rw [Nat.shiftRight_eq_div_pow, h255, Nat.and_pow_two_sub_one_eq_mod]

/-- The fall-through cascade for `type_db` produces the single low byte. -/
theorem intBytes_db (v : Nat) :
    intBytes data_type.type_db v = [v &&& 255, 0, 0, 0, 0, 0, 0, 0] := rfl

/-- The fall-through cascade for `type_dw` produces the two low bytes. -/
theorem intBytes_dw (v : Nat) :
    intBytes data_type.type_dw v =
      [v &&& 255, v >>> 8 &&& 255, 0, 0, 0, 0, 0, 0] := rfl

/-- The fall-through cascade for `type_dd` produces the four low bytes. -/
theorem intBytes_dd (v : Nat) :
    intBytes data_type.type_dd v =
      [v &&& 255, v >>> 8 &&& 255, v >>> 16 &&& 255, v >>> 24 &&& 255,
        0, 0, 0, 0] := rfl

/-- The fall-through cascade for `type_dq` fills all eight bytes. -/
theorem intBytes_dq (v : Nat) :
    intBytes data_type.type_dq v =
      [v &&& 255, v >>> 8 &&& 255, v >>> 16 &&& 255, v >>> 24 &&& 255,
        v >>> 32 &&& 255, v >>> 40 &&& 255, v >>> 48 &&& 255,
        v >>> 56 &&& 255] := rfl

end Patch

namespace Patch

theorem data_type.val_le_8 (t : data_type) : t.val ≤ 8 := by
  cases t <;> simp [data_type.val]

theorem intBytes_length (t : data_type) (v : Nat) : (intBytes t v).length = 8 := by
  cases t <;> rfl

theorem intBytes_getD_lt (t : data_type) (v i : Nat) (h : i < t.val) :
    (intBytes t v).getD i 0 = v % 2 ^ (8 * t.val) / 2 ^ (8 * i) % 256 := by
  cases t with
  | type_db =>
    simp only [data_type.val] at h ⊢
    interval_cases i
    · simpa [intBytes_db] using shift_and_byte v 0 1 (by omega)
  | type_dw =>
    simp only [data_type.val] at h ⊢
    interval_cases i
    · simpa [intBytes_dw] using shift_and_byte v 0 2 (by omega)
    · simpa [intBytes_dw] using shift_and_byte v 8 2 (by omega)
  | type_dd =>
    simp only [data_type.val] at h ⊢
    interval_cases i
    · simpa [intBytes_dd] using shift_and_byte v 0 4 (by omega)
    · simpa [intBytes_dd] using shift_and_byte v 8 4 (by omega)
    · simpa [intBytes_dd] using shift_and_byte v 16 4 (by omega)
    · simpa [intBytes_dd] using shift_and_byte v 24 4 (by omega)
  | type_dq =>
    simp only [data_type.val] at h ⊢
    interval_cases i
    · simpa [intBytes_dq] using shift_and_byte v 0 8 (by omega)
    · simpa [intBytes_dq] using shift_and_byte v 8 8 (by omega)
    · simpa [intBytes_dq] using shift_and_byte v 16 8 (by omega)
    · simpa [intBytes_dq] using shift_and_byte v 24 8 (by omega)
    · simpa [intBytes_dq] using shift_and_byte v 32 8 (by omega)
    · simpa [intBytes_dq] using shift_and_byte v 40 8 (by omega)
    · simpa [intBytes_dq] using shift_and_byte v 48 8 (by omega)
    · simpa [intBytes_dq] using shift_and_byte v 56 8 (by omega)
  | type_str =>
    simp [data_type.val] at h

theorem intBytes_getD_ge (t : data_type) (v i : Nat) (h : t.val ≤ i) :
    (intBytes t v).getD i 0 = 0 := by
  rcases Nat.lt_or_ge i 8 with h8 | h8
  · cases t with
    | type_db =>
      simp only [data_type.val] at h
      interval_cases i <;> simp [intBytes_db]
    | type_dw =>
      simp only [data_type.val] at h
      interval_cases i <;> simp [intBytes_dw]
    | type_dd =>
      simp only [data_type.val] at h
      interval_cases i <;> simp [intBytes_dd]
    | type_dq =>
      simp only [data_type.val] at h
      omega
    | type_str =>
      interval_cases i <;> simp [intBytes]
  · apply List.getD_eq_default
    rw [intBytes_length]
    omega

theorem copystr_nil : copystr [] = [] := by
  simp [copystr]

theorem copystr_cons (c : Nat) (rest : List Nat) :
    copystr (c :: rest) =
      if c = 92 ∧ rest.head? = some 114 then 13 :: copystr rest.tail
      else if c = 92 ∧ rest.head? = some 110 then 10 :: copystr rest.tail
      else c :: copystr rest := by
  rw [copystr]

theorem copystr_escape_r (rest : List Nat) :
    copystr (92 :: 114 :: rest) = 13 :: copystr rest := by
  rw [copystr_cons]
  simp

theorem copystr_escape_n (rest : List Nat) :
    copystr (92 :: 110 :: rest) = 10 :: copystr rest := by
  rw [copystr_cons]
  simp

theorem copystr_literal (c : Nat) (rest : List Nat)
    (h1 : ¬(c = 92 ∧ rest.head? = some 114))
    (h2 : ¬(c = 92 ∧ rest.head? = some 110)) :
    copystr (c :: rest) = c :: copystr rest := by
  rw [copystr_cons, if_neg h1, if_neg h2]

end Patch

namespace Patch

/-- Overwriting the same range with the same bytes twice equals doing it
once. -/
theorem writeAt_writeAt (f : Nat → Nat) (o : Nat) (bs : List Nat) :
    writeAt (writeAt f o bs) o bs = writeAt f o bs := by
  funext i
  by_cases h : o ≤ i ∧ i < o + bs.length <;> simp [writeAt, h]

/-- Inside the written range, `writeAt` returns the new byte. -/
theorem writeAt_in (f : Nat → Nat) (o : Nat) (bs : List Nat) (i : Nat)
    (h1 : o ≤ i) (h2 : i < o + bs.length) :
    writeAt f o bs i = bs.getD (i - o) 0 := by
  simp [writeAt, h1, h2]

/-- Outside the written range, `writeAt` preserves the old byte. -/
theorem writeAt_out (f : Nat → Nat) (o : Nat) (bs : List Nat) (i : Nat)
    (h : i < o ∨ o + bs.length ≤ i) :
    writeAt f o bs i = f i := by
  rcases h with h | h <;> simp [writeAt] <;> omega

/-- Writing the empty byte list changes nothing. -/
theorem writeAt_nil (f : Nat → Nat) (o : Nat) : writeAt f o [] = f := by
  funext i
  simp [writeAt]

/-- The string-mode buffer always has exactly the requested length. -/
theorem strEncode_length (d : List Nat) (L p : Nat) :
    (strEncode d L p).length = L := by
  simp only [strEncode]
  split <;> simp <;> omega

/-- Front of the string-mode buffer: the copied bytes of the data. -/
theorem strEncode_getD_lt (d : List Nat) (L p i : Nat)
    (h : i < min d.length L) :
    (strEncode d L p).getD i 0 = d.getD i 0 := by
  simp only [strEncode]
  have hm : (if d.length > L then L else d.length) = min d.length L := by
    split <;> omega
  rw [hm]
  rw [List.getD_append]
  · rw [List.getD_eq_getElem?_getD, List.getD_eq_getElem?_getD,
      List.getElem?_take, if_pos h]
  · simp
    omega

/-- Tail of the string-mode buffer: the memset pad value. -/
theorem strEncode_getD_ge (d : List Nat) (L p i : Nat)
    (h1 : min d.length L ≤ i) (h2 : i < L) :
    (strEncode d L p).getD i 0 = p := by
  simp only [strEncode]
  have hm : (if d.length > L then L else d.length) = min d.length L := by
    split <;> omega
  rw [hm]
  have hlen : (d.take (min d.length L)).length = min d.length L := by
    simp
  rw [List.getD_append_right]
  · rw [hlen, List.drop_replicate]
    have hi : i - min d.length L < L - min d.length L := by omega
    simp [List.getD_eq_getElem?_getD, List.getElem?_replicate, hi]
  · simp
    omega

end Patch

namespace Patch

/-- A byte string without backslash is decoded to itself. -/
theorem copystr_id_of_no_backslash (l : List Nat) (h : 92 ∉ l) :
    copystr l = l := by
  induction l with
  | nil => exact copystr_nil
  | cons c rest ih =>
    simp only [List.mem_cons, not_or] at h
    rw [copystr_literal c rest (fun hc => h.1 hc.1.symm)
        (fun hc => h.1 hc.1.symm), ih h.2]

/-- Appending a byte different from the escape letters to the input cannot
make the lookahead condition of `copystr` true. -/
theorem copystr_cond_append (c x y : Nat) (rest : List Nat) (hx : x ≠ y)
    (h : ¬(c = 92 ∧ rest.head? = some y)) :
    ¬(c = 92 ∧ (rest ++ [x]).head? = some y) := by
  cases rest <;> simp_all

/-- Claim C4: the escape decoder maps backslash-r to 0x0D and backslash-n to
0x0A, preserves every other backslash literally with no other escapes
recognised; an input without backslash decodes to itself, and the
four-character input "a\nb" decodes to the three bytes 0x61, 0x0A, 0x62. -/
theorem C4_escape_decoding :
    (∀ rest : List Nat, copystr (92 :: 114 :: rest) = 13 :: copystr rest)
    ∧ (∀ rest : List Nat, copystr (92 :: 110 :: rest) = 10 :: copystr rest)
    ∧ (∀ rest : List Nat, rest.head? ≠ some 114 → rest.head? ≠ some 110 →
        copystr (92 :: rest) = 92 :: copystr rest)
    ∧ (∀ l : List Nat, 92 ∉ l → copystr l = l)
    ∧ copystr [97, 92, 110, 98] = [97, 10, 98] := by
  refine ⟨copystr_escape_r, copystr_escape_n, ?_, copystr_id_of_no_backslash, ?_⟩
  · intro rest h1 h2
    exact copystr_literal 92 rest (by simp [h1]) (by simp [h2])
  · simp [copystr_cons, copystr_nil]

/-- Claim C4, instantiated: the escape equation at a concrete tail and the
identity on a concrete backslash-free input. -/
theorem C4_escape_decoding_witness :
    copystr [92, 114, 97] = 13 :: copystr [97] ∧ copystr [99] = [99] :=
  ⟨C4_escape_decoding.1 [97], C4_escape_decoding.2.2.2.1 [99] (by decide)⟩

/-- Claim C8: each step of the single left-to-right pass consumes one or two
input bytes and emits exactly one, so the output length lies between
the ceiling of half the input length and the input length. -/
theorem C8_copystr_length_bounds (l : List Nat) :
    (copystr l).length ≤ l.length ∧ l.length ≤ 2 * (copystr l).length := by
  induction l using copystr.induct with
  | case1 => simp [copystr_nil]
  | case2 c rest h ih =>
    obtain ⟨hc, hh⟩ := h
    cases rest with
    | nil => simp at hh
    | cons a t =>
      simp only [List.head?_cons, Option.some.injEq] at hh
      subst hc hh
      rw [copystr_escape_r]
      simp only [List.length_cons, List.tail_cons] at ih ⊢
      omega
  | case3 c rest h1 h2 ih =>
    obtain ⟨hc, hh⟩ := h2
    cases rest with
    | nil => simp at hh
    | cons a t =>
      simp only [List.head?_cons, Option.some.injEq] at hh
      subst hc hh
      rw [copystr_escape_n]
      simp only [List.length_cons, List.tail_cons] at ih ⊢
      omega
  | case4 c rest h1 h2 ih =>
    rw [copystr_literal c rest h1 h2]
    simp only [List.length_cons]
    omega

/-- Claim C9: an input ending in a backslash has that backslash copied to the
output literally (escape replacement needs a following letter r or n, and the
byte after the final backslash is the NUL terminator, which is neither), so
decoding never consumes past the end of the input and the output also ends in
the backslash. -/
theorem C9_trailing_backslash (l : List Nat) :
    copystr (l ++ [92]) = copystr l ++ [92]
    ∧ (copystr (l ++ [92])).getLast? = some 92 := by
  have main : copystr (l ++ [92]) = copystr l ++ [92] := by
    induction l using copystr.induct with
    | case1 =>
      rw [copystr_nil, List.nil_append]
      rw [copystr_literal 92 [] (by simp) (by simp), copystr_nil]
    | case2 c rest h ih =>
      obtain ⟨hc, hh⟩ := h
      cases rest with
      | nil => simp at hh
      | cons a t =>
        simp only [List.head?_cons, Option.some.injEq] at hh
        subst hc hh
        simp only [List.tail_cons] at ih
        simp only [List.cons_append, copystr_escape_r, ih]
    | case3 c rest h1 h2 ih =>
      obtain ⟨hc, hh⟩ := h2
      cases rest with
      | nil => simp at hh
      | cons a t =>
        simp only [List.head?_cons, Option.some.injEq] at hh
        subst hc hh
        simp only [List.tail_cons] at ih
        simp only [List.cons_append, copystr_escape_n, ih]
    | case4 c rest h1 h2 ih =>
      rw [List.cons_append,
        copystr_literal c (rest ++ [92])
          (copystr_cond_append c 92 114 rest (by omega) h1)
          (copystr_cond_append c 92 110 rest (by omega) h2),
        ih, copystr_literal c rest h1 h2, List.cons_append]
  refine ⟨main, ?_⟩
  rw [main]
  exact List.getLast?_concat _

end Patch

namespace Patch

/-- Claim C1: for every value v supplied as the -d decimal argument and every
integer kind of width w in 1, 2, 4, 8, the encoder produces an 8-byte buffer
whose bytes 0..w-1 are the little-endian encoding of v modulo 2^(8w) and
whose bytes w..7 are zero, and the run writes exactly those w bytes to the
file; in particular -t dq -d -1 yields eight 0xFF bytes and -t db -d 257
yields the single byte 0x01. -/
theorem C1_integer_encoder (t : data_type) (v : Nat)
    (h : t ≠ data_type.type_str) :
    (intBytes t v).length = 8
    ∧ (∀ i, i < t.val → (intBytes t v).getD i 0
        = v % 2 ^ (8 * t.val) / 2 ^ (8 * i) % 256)
    ∧ (∀ i, t.val ≤ i → (intBytes t v).getD i 0 = 0)
    ∧ ((intBytes t v).take t.val).length = t.val
    ∧ (∀ (fp d : List Nat) (o L p : Nat) (f : Nat → Nat),
        (runPatch ⟨some fp, o, t, L, p, d⟩ (some f) (fun n => n)).file
          = some (writeAt f o ((intBytes t (integer_for d)).take t.val)))
    ∧ intBytes data_type.type_dq (integer_for (copystr [45, 49]))
        = [255, 255, 255, 255, 255, 255, 255, 255]
    ∧ (intBytes data_type.type_db (integer_for (copystr [50, 53, 55]))).take
        data_type.type_db.val = [1] := by
  have hval8 := data_type.val_le_8 t
  refine ⟨intBytes_length t v, fun i hi => intBytes_getD_lt t v i hi,
    fun i hi => intBytes_getD_ge t v i hi, ?_, ?_, ?_, ?_⟩
  · rw [List.length_take, intBytes_length]
    omega
  · intro fp d o L p f
    simp [runPatch, h]
  · have hcp : copystr [45, 49] = [45, 49] := by
      simp [copystr_cons, copystr_nil]
    rw [hcp]
    decide
  · have hcp : copystr [50, 53, 55] = [50, 53, 55] := by
      simp [copystr_cons, copystr_nil]
    rw [hcp]
    decide

/-- Claim C1, instantiated at kind dw and value 5. -/
theorem C1_integer_encoder_witness :
    (intBytes data_type.type_dw 5).length = 8
    ∧ (intBytes data_type.type_dw 5).getD 0 0
        = 5 % 2 ^ (8 * 2) / 2 ^ (8 * 0) % 256 :=
  ⟨(C1_integer_encoder data_type.type_dw 5 (by decide)).1,
    (C1_integer_encoder data_type.type_dw 5 (by decide)).2.1 0 (by decide)⟩

/-- Claim C2: a successful integer-mode run with width w writes the
little-endian encoding of the low 8w bits of the -d value at positions
offset..offset+w-1 and leaves every byte outside that range identical to the
pre-run file. -/
theorem C2_integer_frame (t : data_type) (o L p : Nat) (fp d : List Nat)
    (f : Nat → Nat) (h : t ≠ data_type.type_str) :
    (runPatch ⟨some fp, o, t, L, p, d⟩ (some f) (fun n => n)).exitCode = 0
    ∧ ∃ g, (runPatch ⟨some fp, o, t, L, p, d⟩ (some f) (fun n => n)).file = some g
      ∧ (∀ i, o ≤ i → i < o + t.val →
          g i = integer_for d % 2 ^ (8 * t.val) / 2 ^ (8 * (i - o)) % 256)
      ∧ (∀ i, i < o ∨ o + t.val ≤ i → g i = f i) := by
  have hval8 := data_type.val_le_8 t
  have hbs : ((intBytes t (integer_for d)).take t.val).length = t.val := by
    rw [List.length_take, intBytes_length]
    omega
  have hrun : runPatch ⟨some fp, o, t, L, p, d⟩ (some f) (fun n => n)
      = ⟨0, "", some (writeAt f o ((intBytes t (integer_for d)).take t.val)),
          true⟩ := by
    simp [runPatch, h]
  refine ⟨by rw [hrun], writeAt f o ((intBytes t (integer_for d)).take t.val),
    by rw [hrun], ?_, ?_⟩
  · intro i h1 h2
    rw [writeAt_in _ _ _ _ h1 (by rw [hbs]; omega)]
    rw [List.getD_eq_getElem?_getD, List.getElem?_take, if_pos (by omega)]
    rw [← List.getD_eq_getElem?_getD]
    exact intBytes_getD_lt t _ (i - o) (by omega)
  · intro i hi
    apply writeAt_out
    rw [hbs]
    exact hi

/-- Claim C2, instantiated: a dw-mode run exits with 0. -/
theorem C2_integer_frame_witness :
    (runPatch ⟨some [120], 3, data_type.type_dw, 1, 0, [50]⟩
        (some (fun _ => 7)) (fun n => n)).exitCode = 0 :=
  (C2_integer_frame data_type.type_dw 3 1 0 [120] [50] (fun _ => 7)
    (by decide)).1

/-- Claim C3: string-mode encoding produces a buffer of exactly L bytes, the
first min(len(s), L) of which are the bytes of the decoded string and the
remaining ones the pad byte; no NUL terminator is appended, and exactly L
bytes are written to the file in a successful run. -/
theorem C3_string_encoder (s : List Nat) (L p : Nat) :
    (strEncode s L p).length = L
    ∧ (∀ i, i < min s.length L → (strEncode s L p).getD i 0 = s.getD i 0)
    ∧ (∀ i, min s.length L ≤ i → i < L → (strEncode s L p).getD i 0 = p)
    ∧ (∀ (fp : List Nat) (o : Nat) (f : Nat → Nat),
        (runPatch ⟨some fp, o, data_type.type_str, L, p, s⟩ (some f)
            (fun n => n)).file = some (writeAt f o (strEncode s L p))
        ∧ (runPatch ⟨some fp, o, data_type.type_str, L, p, s⟩ (some f)
            (fun n => n)).exitCode = 0) := by
  have htake : (strEncode s L p).take L = strEncode s L p :=
    List.take_of_length_le (le_of_eq (strEncode_length s L p))
  refine ⟨strEncode_length s L p, fun i hi => strEncode_getD_lt s L p i hi,
    fun i h1 h2 => strEncode_getD_ge s L p i h1 h2, fun fp o f => ?_⟩
  constructor
  · simp [runPatch, htake]
  · simp [runPatch]

/-- Claim C3, instantiated at the boundary example -t str -d "Hi" -l 5 -p 32:
a five-byte buffer with three trailing pad bytes. -/
theorem C3_string_encoder_witness :
    (strEncode [72, 105] 5 32).length = 5
    ∧ (strEncode [72, 105] 5 32).getD 1 0 = [72, 105].getD 1 0
    ∧ (strEncode [72, 105] 5 32).getD 3 0 = 32 :=
  ⟨(C3_string_encoder [72, 105] 5 32).1,
    (C3_string_encoder [72, 105] 5 32).2.1 1 (by decide),
    (C3_string_encoder [72, 105] 5 32).2.2.1 3 (by decide) (by decide)⟩

end Patch

namespace Patch

/-- Claim C5: the exit code is 1 (with the missing-file diagnostic) exactly
when no -f path is present, 2 (with the open-failure diagnostic) exactly when
a path is present but the open fails, 3 exactly when the open succeeds and
fewer bytes than requested are written, and 0 exactly when the full encoded
buffer is written. -/
theorem C5_exit_codes (req : PatchRequest) (opened : Option (Nat → Nat))
    (wr : Nat → Nat) :
    (((runPatch req opened wr).exitCode = 1
        ∧ (runPatch req opened wr).stderrMsg = "No binary file supplied.")
      ↔ req.file = none)
    ∧ (((runPatch req opened wr).exitCode = 2
        ∧ (runPatch req opened wr).stderrMsg
            = "Failed to open specified binary file.")
      ↔ (req.file ≠ none ∧ opened = none))
    ∧ ((runPatch req opened wr).exitCode = 3
      ↔ (req.file ≠ none ∧ opened ≠ none
          ∧ min (wr (requestedCount req)) (requestedCount req)
              < requestedCount req))
    ∧ ((runPatch req opened wr).exitCode = 0
      ↔ (req.file ≠ none ∧ opened ≠ none
          ∧ min (wr (requestedCount req)) (requestedCount req)
              = requestedCount req)) := by
  rcases hf : req.file with _ | fp
  · simp [runPatch, hf]
  · rcases ho : opened with _ | f
    · simp [runPatch, hf, ho]
    · by_cases ht : req.type = data_type.type_str
      · by_cases hw : min (wr req.length) req.length = req.length
        · simp [runPatch, hf, ho, ht, hw, requestedCount]
        · simp [runPatch, hf, ho, ht, hw, requestedCount]
          omega
      · by_cases hw : min (wr req.type.val) req.type.val = req.type.val
        · simp [runPatch, hf, ho, ht, hw, requestedCount]
        · simp [runPatch, hf, ho, ht, hw, requestedCount]
          omega

/-- Claim C5, instantiated: a run without -f exits with code 1 and the
missing-file diagnostic. -/
theorem C5_exit_codes_witness :
    (runPatch ⟨none, 0, data_type.type_db, 1, 0, [48]⟩ none (fun n => n)).exitCode
        = 1
    ∧ (runPatch ⟨none, 0, data_type.type_db, 1, 0, [48]⟩ none
        (fun n => n)).stderrMsg = "No binary file supplied." :=
  (C5_exit_codes ⟨none, 0, data_type.type_db, 1, 0, [48]⟩ none
    (fun n => n)).1.mpr rfl

/-- Claim C6, divergence witness: on the short-write path (fwrite reports 0
of 1 requested bytes) the program returns exit code 3 without reaching
fclose, so the descriptor is not closed there, while the full-write path does
close it.  The C source returns from inside the write-error branch before the
fclose call. -/
theorem C6_descriptor_leak :
    (runPatch ⟨some [120], 0, data_type.type_db, 1, 0, [48]⟩
        (some (fun _ => 0)) (fun _ => 0)).exitCode = 3
    ∧ (runPatch ⟨some [120], 0, data_type.type_db, 1, 0, [48]⟩
        (some (fun _ => 0)) (fun _ => 0)).closed = false
    ∧ (runPatch ⟨some [120], 0, data_type.type_db, 1, 0, [48]⟩
        (some (fun _ => 0)) (fun n => n)).closed = true := by
  refine ⟨?_, ?_, ?_⟩ <;> rfl

/-- Claim C7: with a fixed argument vector and a deterministic write oracle,
running the patch operation twice in sequence yields the same final file as
running it once, on every initial file state and on every outcome path. -/
theorem C7_idempotent (req : PatchRequest) (opened : Option (Nat → Nat))
    (wr : Nat → Nat) :
    (runPatch req (runPatch req opened wr).file wr).file
      = (runPatch req opened wr).file := by
  rcases hf : req.file with _ | fp
  · simp [runPatch, hf]
  · rcases ho : opened with _ | f
    · simp [runPatch, hf, ho]
    · by_cases ht : req.type = data_type.type_str <;>
        simp [runPatch, hf, ho, ht, apply_ite RunResult.file, writeAt_writeAt]

/-- Claim C10: a string-mode run with length 0 writes zero bytes, leaves the
file byte-identical, is not reported as a short write, and exits with code 0
through the normal close path. -/
theorem C10_zero_length_string (fp d : List Nat) (o p : Nat) (f : Nat → Nat)
    (wr : Nat → Nat) :
    (runPatch ⟨some fp, o, data_type.type_str, 0, p, d⟩ (some f) wr).exitCode = 0
    ∧ (runPatch ⟨some fp, o, data_type.type_str, 0, p, d⟩ (some f) wr).file
        = some f
    ∧ (runPatch ⟨some fp, o, data_type.type_str, 0, p, d⟩ (some f) wr).closed
        = true := by
  have hbuf : strEncode d 0 p = [] := by
    rcases h : d.length with _ | k <;> simp [strEncode, h]
  simp [runPatch, hbuf, writeAt_nil]

end Patch
